import Mathlib

/-!
Verification of the AgentNapster registry/exchange core (src/main.py) against its
natural-language specification.

The Python service keeps five SQLite relations (agents, skills, transfers,
requests, ratings) and exposes register, discover, publish, request, share and
rate operations.  We embed the relations as Lean structures, the SQLite store as
a `Store` record of lists plus AUTOINCREMENT counters, and each endpoint body as
a record of `Option` fields (absent JSON keys become `none`).  Timestamps
(`datetime.now().isoformat()`) are passed in as an opaque `now : String`.
`REAL` columns (reputation, skill rating) are modelled as `Rat`; SQL `AVG` is an
exact rational mean.

Strings that flow through SQL `LIKE` and `json.dumps` are modelled at the level
of their code points (`List Nat`): `json.dumps` with its default
`ensure_ascii=True` escaping is embedded as `jsonDumpCodes`, and SQLite `LIKE`
(wildcards `%`/`_`, ASCII-only case folding) as `likeMatch`.  Python
`str.lower()` is modelled as ASCII case folding (`lowerN`), on which Python and
SQLite agree for ASCII text.
-/

namespace AgentNapster

/-! ## Character-level modelling of json.dumps and SQL LIKE -/

/-- Code points of a string, the alphabet on which `json.dumps` and SQL `LIKE`
operate. -/
def codes (s : String) : List Nat := s.data.map Char.toNat

/-- ASCII lower-casing of one code point: SQLite `LIKE` folds exactly the ASCII
letters, and Python `str.lower()` agrees on ASCII input. -/
def lowerN (c : Nat) : Nat := if 65 ≤ c ∧ c ≤ 90 then c + 32 else c

/-- ASCII lower-casing of a code-point string. -/
def lowerCodes (l : List Nat) : List Nat := l.map lowerN

/-- Lower-case hex digit, as emitted by `json.dumps` in `\uXXXX` escapes. -/
def hexDig (n : Nat) : Nat := if n < 10 then 48 + n else 87 + n

/-- The six code points of a `\uXXXX` escape for a 16-bit value. -/
def uEsc (c : Nat) : List Nat :=
  [92, 117, hexDig (c / 4096 % 16), hexDig (c / 256 % 16), hexDig (c / 16 % 16), hexDig (c % 16)]

/-- How `json.dumps` (default `ensure_ascii=True`) renders one code point inside
a string literal: `"` and `\` get backslash escapes, the usual control
characters get two-character escapes, all other control and all non-ASCII code
points get `\uXXXX` (surrogate pairs above the BMP), and the remaining printable
ASCII code points stand for themselves. -/
def jsonEscape (c : Nat) : List Nat :=
  if c = 34 then [92, 34]
  else if c = 92 then [92, 92]
  else if c = 10 then [92, 110]
  else if c = 13 then [92, 114]
  else if c = 9 then [92, 116]
  else if c = 8 then [92, 98]
  else if c = 12 then [92, 102]
  else if c < 32 then uEsc c
  else if c < 127 then [c]
  else if c < 65536 then uEsc c
  else uEsc (55296 + (c - 65536) / 1024) ++ uEsc (56320 + (c - 65536) % 1024)

/-- A JSON string literal: quote, escaped body, quote. -/
def jsonQuote (l : List Nat) : List Nat := 34 :: l.flatMap jsonEscape ++ [34]

/-- The `", ".join` used by `json.dumps` between array elements. -/
def joinComma : List (List Nat) → List Nat
  | [] => []
  | [x] => x
  | x :: y :: t => x ++ [44, 32] ++ joinComma (y :: t)

/-- `json.dumps(skills)` for a list of strings, as stored in the `agents.skills`
column: `[` , comma-separated JSON string literals, `]`. -/
def jsonDumpCodes (skills : List String) : List Nat :=
  91 :: joinComma (skills.map fun s => jsonQuote (codes s)) ++ [93]

/-- SQLite `LIKE` matching on code points: `%` (37) matches any sequence, `_`
(95) matches any single code point, and any other pattern code point matches a
text code point up to ASCII case folding. -/
def likeMatch : List Nat → List Nat → Bool
  | [], s => s.isEmpty
  | p :: ps, s =>
    if p = 37 then s.tails.any fun t => likeMatch ps t
    else if p = 95 then
      match s with
      | [] => false
      | _ :: cs => likeMatch ps cs
    else
      match s with
      | [] => false
      | c :: cs => lowerN p == lowerN c && likeMatch ps cs

/-- A code point that `json.dumps` stores as itself: printable ASCII other than
the double quote and the backslash. -/
def plainCode (c : Nat) : Prop := 32 ≤ c ∧ c ≤ 126 ∧ c ≠ 34 ∧ c ≠ 92

instance (c : Nat) : Decidable (plainCode c) := by
  unfold plainCode; infer_instance

/-! ## Data model (section 3 of the spec; CREATE TABLE statements in main.py) -/

/-- A row of the `agents` table. -/
structure Agent where
  id : String
  name : String
  description : String
  skills : List String
  reputation : Rat
  total_shares : Nat
  total_receives : Nat
  registered_at : String
  last_seen : String
  status : String
deriving DecidableEq

/-- A row of the `skills` catalog table.  `parameters` holds the already
serialized JSON payload, opaque to the core. -/
structure Skill where
  id : Nat
  skill_name : String
  category : String
  description : String
  owner_agent_id : String
  endpoint : String
  parameters : String
  rating : Rat
  times_shared : Nat
  created_at : String
deriving DecidableEq

/-- A row of the `transfers` table; `skill_id` is the nullable weak reference
resolved at share time. -/
structure Transfer where
  id : Nat
  skill_id : Option Nat
  from_agent_id : String
  to_agent_id : String
  status : String
  timestamp : String
deriving DecidableEq

/-- A row of the `requests` table. -/
structure RequestRow where
  id : Nat
  requester_agent_id : String
  skill_name : String
  status : String
  fulfilled_by : Option String
  created_at : String
  fulfilled_at : Option String
deriving DecidableEq

/-- A row of the `ratings` table. -/
structure Rating where
  id : Nat
  skill_id : Nat
  rater_agent_id : String
  rating : Int
  review : String
  created_at : String
deriving DecidableEq

/-- The SQLite database: the five relations plus the AUTOINCREMENT counters of
the four tables with generated integer keys. -/
structure Store where
  agents : List Agent
  skills : List Skill
  transfers : List Transfer
  requests : List RequestRow
  ratings : List Rating
  nextSkillId : Nat
  nextTransferId : Nat
  nextRequestId : Nat
  nextRatingId : Nat
deriving DecidableEq

/-- A store with no rows, ids starting at 1 as SQLite AUTOINCREMENT does. -/
def emptyStore : Store :=
  { agents := [], skills := [], transfers := [], requests := [], ratings := []
    nextSkillId := 1, nextTransferId := 1, nextRequestId := 1, nextRatingId := 1 }

/-- Errors surfaced by an endpoint: `validation` is an
`HTTPException(status_code=400, detail=...)`; `typeError` is an uncaught Python
`TypeError` escaping the handler (a 500, not a structured error). -/
inductive ApiError where
  | validation : String → ApiError
  | typeError : ApiError
deriving DecidableEq

/-! ## Request bodies.  Each JSON body field is an `Option`; `none` is an
absent key (Python `dict.get` returning `None`). -/

structure RegisterBody where
  agent_id : Option String
  name : Option String
  description : Option String
  skills : Option (List String)
deriving DecidableEq

structure PublishBody where
  agent_id : Option String
  skill_name : Option String
  category : Option String
  description : Option String
  endpoint : Option String
  parameters : Option String
deriving DecidableEq

structure DiscoverBody where
  skills_needed : Option (List String)
  agent_id : Option String
deriving DecidableEq

structure RequestBody where
  agent_id : Option String
  skill_name : Option String
deriving DecidableEq

structure ShareBody where
  from_agent_id : Option String
  to_agent_id : Option String
  skill_name : Option String
  request_id : Option Nat
deriving DecidableEq

structure RateBody where
  agent_id : Option String
  skill_id : Option Nat
  rating : Option Int
  review : Option String
deriving DecidableEq

/-- Python `s[:n]` on a string. -/
def strTake (s : String) (n : Nat) : String := String.mk (s.data.take n)

/-! ## register_agent (main.py lines 120-162) -/

/-- POST /api/agents/register.  Note the order of effects in the source: the
expression `body.get("name", f"Agent-{agent_id[:8]}")` evaluates its default
argument eagerly, so when `agent_id` is absent (`None`) the slice `None[:8]`
raises `TypeError` BEFORE the `if not agent_id` required-field check runs; only
a present-but-empty `agent_id` reaches the 400 validation error.  On success the
endpoint upserts: an existing row keeps `registered_at`, `total_shares`,
`total_receives` and `reputation` and has `name`, `description`, `skills`,
`last_seen` overwritten and `status` forced to `"online"`; a fresh row gets the
column defaults (reputation 5.0, counters 0). -/
def register_agent (st : Store) (now : String) (body : RegisterBody) : Except ApiError Store :=
  match body.agent_id with
  | none => .error .typeError
  | some aid =>
    let name := body.name.getD ("Agent-" ++ strTake aid 8)
    let description := body.description.getD ""
    let skills := body.skills.getD []
    if aid = "" then .error (.validation "agent_id is required")
    else if st.agents.any fun a => a.id == aid then
      .ok { st with agents := st.agents.map fun a =>
              if a.id = aid then
                { a with name := name, description := description, skills := skills,
                         last_seen := now, status := "online" }
              else a }
    else
      .ok { st with agents := st.agents ++
              [{ id := aid, name := name, description := description, skills := skills,
                 reputation := 5, total_shares := 0, total_receives := 0,
                 registered_at := now, last_seen := now, status := "online" }] }

/-! ## publish_skill (main.py lines 220-253) -/

/-- POST /api/skills/publish.  Inserts a catalog row verbatim: the `category`
value from the body is stored as supplied, with `"other"` only as the default
for an absent key; no check against `SKILL_CATEGORIES` is performed.  Returns
the generated skill id. -/
def publish_skill (st : Store) (now : String) (body : PublishBody) :
    Except ApiError (Store × Nat) :=
  match body.agent_id, body.skill_name with
  | some aid, some sk =>
    if aid = "" ∨ sk = "" then .error (.validation "agent_id and skill_name are required")
    else
      .ok ({ st with
              skills := st.skills ++
                [{ id := st.nextSkillId, skill_name := sk,
                   category := body.category.getD "other",
                   description := body.description.getD "",
                   owner_agent_id := aid, endpoint := body.endpoint.getD "",
                   parameters := body.parameters.getD "\x7b\x7d",
                   rating := 5, times_shared := 0, created_at := now }]
              nextSkillId := st.nextSkillId + 1 },
            st.nextSkillId)
  | _, _ => .error (.validation "agent_id and skill_name are required")

/-- The closed category enumeration (main.py lines 103-114).  `publish_skill`
never consults it; it is served by GET /api/skills/categories. -/
def SKILL_CATEGORIES : List String :=
  ["utilities", "productivity", "data", "finance", "social", "creative",
   "development", "communication", "security", "other"]

/-! ## discover_skills (main.py lines 304-346) -/

/-- One returned match of POST /api/discover. -/
structure DiscoverMatch where
  skill : String
  agent_id : String
  agent_name : String
  reputation : Rat
  total_shares : Nat
deriving DecidableEq

/-- Stable insertion keeping the list in descending reputation order
(`ORDER BY reputation DESC`). -/
def insertByRep (a : Agent) : List Agent → List Agent
  | [] => [a]
  | b :: bs => if b.reputation ≤ a.reputation then a :: b :: bs else b :: insertByRep a bs

/-- `ORDER BY reputation DESC` over a list of agent rows. -/
def sortByRep : List Agent → List Agent
  | [] => []
  | a :: rest => insertByRep a (sortByRep rest)

/-- The SQL row filter of discover for one requested tag:
`skills LIKE '%"{skill}"%' AND status = 'online' AND id != requester`.  The LIKE
pattern wraps the raw tag in double quotes and runs against the `json.dumps`
serialization of the agent's skill list. -/
def discoverPre (tag requester : String) (a : Agent) : Bool :=
  likeMatch (37 :: 34 :: codes tag ++ [34, 37]) (jsonDumpCodes a.skills) &&
    a.status == "online" && a.id != requester

/-- The Python refinement applied to each SQL row:
`skill.lower() in [s.lower() for s in agent_skills]` — exact case-insensitive
membership of the tag in the parsed skill list. -/
def discoverRefine (tag : String) (a : Agent) : Bool :=
  decide (lowerCodes (codes tag) ∈ a.skills.map fun s => lowerCodes (codes s))

/-- The agents contributing matches for one requested tag, in result order:
SQL prefilter, `ORDER BY reputation DESC`, then the exact-membership
refinement. -/
def discoverFilter (agents : List Agent) (tag requester : String) : List Agent :=
  (sortByRep (agents.filter (discoverPre tag requester))).filter (discoverRefine tag)

/-- POST /api/discover.  Requester defaults to `"anonymous"`; an absent or
empty `skills_needed` is a 400; otherwise the per-tag matches are concatenated
in request order. -/
def discover_skills (st : Store) (body : DiscoverBody) :
    Except ApiError (List DiscoverMatch) :=
  let needed := body.skills_needed.getD []
  let requester := body.agent_id.getD "anonymous"
  if needed.isEmpty then .error (.validation "skills_needed array is required")
  else .ok (needed.flatMap fun tag =>
    (discoverFilter st.agents tag requester).map fun a =>
      { skill := tag, agent_id := a.id, agent_name := a.name,
        reputation := a.reputation, total_shares := a.total_shares })

/-! ## request_skill (main.py lines 349-378) -/

/-- POST /api/request: append an open request row; returns the generated id. -/
def request_skill (st : Store) (now : String) (body : RequestBody) :
    Except ApiError (Store × Nat) :=
  match body.agent_id, body.skill_name with
  | some aid, some sk =>
    if aid = "" ∨ sk = "" then .error (.validation "agent_id and skill_name are required")
    else
      .ok ({ st with
              requests := st.requests ++
                [{ id := st.nextRequestId, requester_agent_id := aid, skill_name := sk,
                   status := "open", fulfilled_by := none, created_at := now,
                   fulfilled_at := none }]
              nextRequestId := st.nextRequestId + 1 },
            st.nextRequestId)
  | _, _ => .error (.validation "agent_id and skill_name are required")

/-! ## share_skill (main.py lines 381-438) -/

/-- POST /api/share.  After the non-empty checks on the three required fields:
resolve `skill_id` as the first catalog row matching (skill_name, owner); append
a completed transfer; bump `total_shares` of every agent row with the from id
and `total_receives` of every row with the to id (no existence check — a share
from an unregistered agent still logs the transfer); bump `times_shared` when
the skill resolved; and, when a non-zero `request_id` was supplied, stamp every
request row with that id as fulfilled by the sharer at `now`, unconditionally —
neither the request's previous status nor its skill name is consulted. -/
def share_skill (st : Store) (now : String) (body : ShareBody) : Except ApiError Store :=
  match body.from_agent_id, body.to_agent_id, body.skill_name with
  | some frm, some toA, some sk =>
    if frm = "" ∨ toA = "" ∨ sk = "" then
      .error (.validation "from_agent_id, to_agent_id, and skill_name are required")
    else
      let skillId := (st.skills.find? fun s =>
        s.skill_name == sk && s.owner_agent_id == frm).map (fun s => s.id)
      let transfers := st.transfers ++
        [{ id := st.nextTransferId, skill_id := skillId, from_agent_id := frm,
           to_agent_id := toA, status := "completed", timestamp := now }]
      let agents1 := st.agents.map fun a =>
        if a.id = frm then { a with total_shares := a.total_shares + 1 } else a
      let agents2 := agents1.map fun a =>
        if a.id = toA then { a with total_receives := a.total_receives + 1 } else a
      let skills := match skillId with
        | some sidv => st.skills.map fun s =>
            if s.id = sidv then { s with times_shared := s.times_shared + 1 } else s
        | none => st.skills
      let requests := match body.request_id with
        | some rid =>
          if rid = 0 then st.requests
          else st.requests.map fun rq =>
            if rq.id = rid then
              { rq with status := "fulfilled", fulfilled_by := some frm,
                        fulfilled_at := some now }
            else rq
        | none => st.requests
      .ok { st with transfers := transfers, agents := agents2, skills := skills,
                    requests := requests, nextTransferId := st.nextTransferId + 1 }
  | _, _, _ => .error (.validation "from_agent_id, to_agent_id, and skill_name are required")

/-! ## rate_skill (main.py lines 474-521) -/

/-- Exact rational mean, the value SQL `AVG` computes over integer ratings. -/
def meanQ (l : List Int) : Rat := (l.sum : Rat) / l.length

/-- The rows of `SELECT r.rating FROM ratings r JOIN skills s ON r.skill_id =
s.id WHERE s.owner_agent_id = owner`: for each rating, one copy per catalog row
it joins to with the given owner. -/
def ownerJoinRatings (ratings : List Rating) (skills : List Skill) (owner : String) :
    List Int :=
  ratings.flatMap fun q =>
    (skills.filter fun sk => sk.id == q.skill_id && sk.owner_agent_id == owner).map
      fun _ => q.rating

/-- POST /api/rate.  Validation: `agent_id` and `skill_id` truthy (absent or
empty/zero fail), rating (default 5) within [1,5].  Then: append the rating
row; set the `rating` of every skill row with the rated id to the mean of all
ratings recorded for that id (including the new one); look up the first skill
row with that id and, when it exists and the joined owner ratings are non-empty
with non-zero mean (the Python `if owner_avg:` truthiness test), set the
owner's reputation to the mean of ratings across all catalog rows that agent
owns. -/
def rate_skill (st : Store) (now : String) (body : RateBody) : Except ApiError Store :=
  match body.agent_id, body.skill_id with
  | some aid, some sid =>
    if aid = "" ∨ sid = 0 then .error (.validation "agent_id and skill_id are required")
    else
      let r := body.rating.getD 5
      if r < 1 ∨ 5 < r then .error (.validation "rating must be between 1 and 5")
      else
        let st1 : Store := { st with
          ratings := st.ratings ++
            [{ id := st.nextRatingId, skill_id := sid, rater_agent_id := aid,
               rating := r, review := body.review.getD "", created_at := now }]
          nextRatingId := st.nextRatingId + 1 }
        let avg := meanQ ((st1.ratings.filter fun q => q.skill_id == sid).map
          fun q => q.rating)
        let st2 : Store := { st1 with skills := st1.skills.map fun s =>
          if s.id = sid then { s with rating := avg } else s }
        match st2.skills.find? (fun s => s.id == sid) with
        | none => .ok st2
        | some s0 =>
          let ownRs := ownerJoinRatings st2.ratings st2.skills s0.owner_agent_id
          if ownRs.isEmpty ∨ meanQ ownRs = 0 then .ok st2
          else
            .ok { st2 with agents := st2.agents.map fun a =>
              if a.id = s0.owner_agent_id then { a with reputation := meanQ ownRs }
              else a }
  | _, _ => .error (.validation "agent_id and skill_id are required")

/-! ## The napster_action discover branch (main.py lines 613-636) -/

/-- One match returned by the dispatch endpoint's discover branch (no
`total_shares` field). -/
structure NapsterMatch where
  skill : String
  agent_id : String
  agent_name : String
  reputation : Rat
deriving DecidableEq

/-- The `action == "discover"` branch of POST /api/napster: for each tag it
runs `SELECT * FROM agents WHERE skills LIKE '%{skill}%' AND status = 'online'
ORDER BY reputation DESC LIMIT 5` — a raw substring pattern without the
surrounding quotes, with no requester exclusion and no exact-membership
refinement — and returns up to five matches per tag. -/
def napsterDiscoverTag (agents : List Agent) (tag : String) : List NapsterMatch :=
  ((sortByRep (agents.filter fun a =>
      likeMatch (37 :: codes tag ++ [37]) (jsonDumpCodes a.skills) &&
        a.status == "online")).take 5).map fun a =>
    { skill := tag, agent_id := a.id, agent_name := a.name, reputation := a.reputation }

/-- The discover action of POST /api/napster over the whole request: tags
default to `[]` (yielding an empty result, not an error). -/
def napsterDiscover (st : Store) (params : DiscoverBody) : List NapsterMatch :=
  (params.skills_needed.getD []).flatMap (napsterDiscoverTag st.agents)

/-! ## deregister -/

/-- Modelled from the spec: no deregister operation exists in src/main.py (the
only source file); there is no /api/agents/deregister route and the string
"offline" is never written by any endpoint.  Spec section 4.2: deregister sets
`status = "offline"` if the agent exists and is a best-effort no-op, still
returning success, if it does not. -/
def deregister_agent (st : Store) (aid : String) : Store × Bool :=
  ({ st with agents := st.agents.map fun a =>
      if a.id = aid then { a with status := "offline" } else a },
   true)

/-! ## Operation sequences over the store (for the share-counter invariant) -/

/-- One mutating call into the Exchange Engine. -/
inductive Op where
  | register : String → RegisterBody → Op
  | deregister : String → Op
  | publish : String → PublishBody → Op
  | request : String → RequestBody → Op
  | share : String → ShareBody → Op
  | rate : String → RateBody → Op

/-- Apply one operation to the store; a failed call leaves the store unchanged
(the endpoints raise before committing). -/
def applyOp (st : Store) : Op → Store
  | .register now body =>
    match register_agent st now body with
    | .ok st1 => st1
    | .error _ => st
  | .deregister aid => (deregister_agent st aid).1
  | .publish now body =>
    match publish_skill st now body with
    | .ok p => p.1
    | .error _ => st
  | .request now body =>
    match request_skill st now body with
    | .ok p => p.1
    | .error _ => st
  | .share now body =>
    match share_skill st now body with
    | .ok st1 => st1
    | .error _ => st
  | .rate now body =>
    match rate_skill st now body with
    | .ok st1 => st1
    | .error _ => st

/-- Apply a sequence of operations left to right. -/
def applyOps : Store → List Op → Store := List.foldl applyOp

/-- The share-counter invariant: every agent row's `total_shares` counts the
transfers from that agent, and every transfer's from id is a registered
agent. -/
def sharesInv (st : Store) : Prop :=
  (∀ a ∈ st.agents,
     a.total_shares = (st.transfers.filter fun t => t.from_agent_id == a.id).length) ∧
  (∀ t ∈ st.transfers, ∃ a ∈ st.agents, a.id = t.from_agent_id)

/-- Side condition on one operation: a share that passes validation must name a
registered from-agent (the code does not check this). -/
def shareOpOk (st : Store) : Op → Prop
  | .share _ body =>
    match body.from_agent_id, body.to_agent_id, body.skill_name with
    | some frm, some toA, some sk =>
      frm ≠ "" → toA ≠ "" → sk ≠ "" → ∃ a ∈ st.agents, a.id = frm
    | _, _, _ => True
  | _ => True

/-- Every share in the sequence names a registered from-agent at its moment of
execution. -/
def ChainOk : Store → List Op → Prop
  | _, [] => True
  | st, op :: ops => shareOpOk st op ∧ ChainOk (applyOp st op) ops

/-! ## General helper lemmas -/

/-- Mapping a function that fixes every member of a list is the identity. -/
theorem map_congr_id {α : Type} (l : List α) (f : α → α) (h : ∀ a ∈ l, f a = a) :
    l.map f = l := by
  induction l with
  | nil => rfl
  | cons a t ih =>
    simp only [List.map_cons, h a (by simp), ih fun x hx => h x (by simp [hx])]

/-! ## Claim C9: deregister -/

/-- C9: for every agent_id, deregistering sets the matching agent's status to
"offline", changes nothing else (all other tables and all other agent fields
untouched), and succeeds as a no-op, not an error, when no such agent exists.
The operation is modelled from the spec because src/main.py contains no
deregister endpoint. -/
theorem C9_deregister_best_effort (st : Store) (aid : String) :
    (deregister_agent st aid).2 = true ∧
    (deregister_agent st aid).1.skills = st.skills ∧
    (deregister_agent st aid).1.transfers = st.transfers ∧
    (deregister_agent st aid).1.requests = st.requests ∧
    (deregister_agent st aid).1.ratings = st.ratings ∧
    (∀ a ∈ st.agents,
      (a.id = aid → { a with status := "offline" } ∈ (deregister_agent st aid).1.agents) ∧
      (a.id ≠ aid → a ∈ (deregister_agent st aid).1.agents)) ∧
    ((∀ a ∈ st.agents, a.id ≠ aid) → (deregister_agent st aid).1 = st) := by
  refine ⟨rfl, rfl, rfl, rfl, rfl, ?_, ?_⟩
  · intro a ha
    constructor
    · intro h
      exact List.mem_map.mpr ⟨a, ha, by rw [if_pos h]⟩
    · intro h
      exact List.mem_map.mpr ⟨a, ha, by rw [if_neg h]⟩
  · intro h
    show { st with agents := _ } = st
    rw [map_congr_id _ _ fun a ha => by rw [if_neg (h a ha)]]

/-- A concrete online agent used to instantiate theorems about the registry. -/
def sampleAgent : Agent :=
  { id := "A", name := "A", description := "", skills := [], reputation := 5,
    total_shares := 0, total_receives := 0, registered_at := "t", last_seen := "t",
    status := "online" }

/-- Witness for C9 at a concrete store holding one online agent. -/
theorem C9_deregister_witness :
    (deregister_agent { emptyStore with agents := [sampleAgent] } "A").2 = true :=
  (C9_deregister_best_effort _ "A").1

/-! ## Claim C2: register without agent_id -/

/-- C2 evaluated at the failing input: a register body with no agent_id key
(even with a name supplied) fails with the uncaught TypeError from evaluating
the eager default `f"Agent-\x7bagent_id[:8]\x7d"` — not with the
ValidationError the claim requires, which the unreached check on line 132 of
main.py would have raised.  No store is produced, so no agent record is
created. -/
theorem C2_register_missing_id_crashes :
    register_agent emptyStore "2026-10-12T00:00:00" ⟨none, some "N", none, none⟩ =
      .error .typeError ∧
    ∀ msg, (ApiError.typeError : ApiError) ≠ ApiError.validation msg :=
  ⟨rfl, fun _ h => ApiError.noConfusion h⟩

/-! ## Claim C7: publish_skill category handling -/

/-- C7 counterexample: a publish call supplying category "bogus" stores
"bogus" in the new catalog row; "bogus" is not a member of the closed category
enumeration, so the stored category is neither in the enumeration nor replaced
by "other". -/
theorem C7_category_counterexample :
    (publish_skill emptyStore "t0"
        ⟨some "A", some "s", some "bogus", none, none, none⟩).toOption.map
      (fun p => p.1.skills.map Skill.category) = some ["bogus"] ∧
    "bogus" ∉ SKILL_CATEGORIES := by
  exact ⟨rfl, by decide⟩

/-- C7 (amended): for every publish_skill call that passes validation, the
category stored in the new catalog row is the supplied category value verbatim
when the field is present — with no membership check against the closed
enumeration — and "other" only when the field is absent. -/
theorem C7_category_verbatim (st : Store) (now : String) (body : PublishBody)
    (aid sk : String) (ha : body.agent_id = some aid) (hane : aid ≠ "")
    (hs : body.skill_name = some sk) (hsne : sk ≠ "") :
    ∃ st1 sid, publish_skill st now body = .ok (st1, sid) ∧
      st1.skills.map Skill.category =
        st.skills.map Skill.category ++ [body.category.getD "other"] := by
  unfold publish_skill
  rw [ha, hs]
  dsimp only
  rw [if_neg (by simp [hane, hsne])]
  exact ⟨_, _, rfl, by simp⟩

/-- Witness for C7 at a concrete publish call with an out-of-enumeration
category. -/
theorem C7_category_witness :
    ("A" : String) ≠ "" ∧ ∃ st1 sid,
      publish_skill emptyStore "t0" ⟨some "A", some "s", some "bogus", none, none, none⟩ =
        .ok (st1, sid) ∧
      st1.skills.map Skill.category =
        emptyStore.skills.map Skill.category ++
          [(⟨some "A", some "s", some "bogus", none, none, none⟩ :
              PublishBody).category.getD "other"] :=
  ⟨by decide,
   C7_category_verbatim emptyStore "t0" _ "A" "s" rfl (by decide) rfl (by decide)⟩

/-! ## Claim C8: the dispatch endpoint versus the direct operations -/

/-- An online agent "B" whose single declared skill is "smartweather". -/
def smartAgent : Agent :=
  { id := "B", name := "B", description := "", skills := ["smartweather"],
    reputation := 5, total_shares := 0, total_receives := 0,
    registered_at := "t", last_seen := "t", status := "online" }

/-- A store whose only agent is `smartAgent`. -/
def stSmart : Store := { emptyStore with agents := [smartAgent] }

/-- C8 evaluated at the failing input: dispatching discover for tag "weather"
through the napster endpoint returns agent B (raw substring LIKE, no
exact-membership refinement, no requester exclusion), while the direct discover
operation returns no match — so the dispatch operation is not equivalent to the
direct one. -/
theorem C8_dispatch_discover_diverges :
    discover_skills stSmart ⟨some ["weather"], some "X"⟩ = .ok [] ∧
    (napsterDiscover stSmart ⟨some ["weather"], some "X"⟩).map
      NapsterMatch.agent_id = ["B"] :=
  ⟨rfl, rfl⟩

/-! ## Claim C10: rating a skill id absent from the catalog -/

/-- C10: a valid rate call whose skill_id matches no catalog row still
succeeds: the rating row referencing the nonexistent skill is appended, no
skill row changes, and no agent's reputation changes (the owner lookup finds
no row, so the reputation recomputation is skipped). -/
theorem C10_rate_unknown_skill (st : Store) (now : String) (body : RateBody)
    (aid : String) (sid : Nat) (r : Int)
    (ha : body.agent_id = some aid) (hane : aid ≠ "")
    (hsid : body.skill_id = some sid) (hsne : sid ≠ 0)
    (hr : body.rating = some r) (h1 : 1 ≤ r) (h5 : r ≤ 5)
    (hmiss : ∀ s ∈ st.skills, s.id ≠ sid) :
    ∃ st1, rate_skill st now body = .ok st1 ∧
      st1.ratings = st.ratings ++
        [{ id := st.nextRatingId, skill_id := sid, rater_agent_id := aid,
           rating := r, review := body.review.getD "", created_at := now }] ∧
      st1.skills = st.skills ∧ st1.agents = st.agents := by
  have hmap : ∀ q : Rat, st.skills.map (fun s =>
      if s.id = sid then { s with rating := q } else s) = st.skills :=
    fun q => map_congr_id _ _ fun s hs => by rw [if_neg (hmiss s hs)]
  have hnone : st.skills.find? (fun s => s.id == sid) = none :=
    List.find?_eq_none.mpr fun s hs => by simp [hmiss s hs]
  obtain ⟨ba, bs, br, bv⟩ := body
  dsimp only at ha hsid hr
  subst ha hsid hr
  unfold rate_skill
  dsimp only
  rw [if_neg (by simp [hane, hsne])]
  dsimp only [Option.getD_some]
  rw [if_neg (by omega)]
  rw [hmap, hnone]
  exact ⟨_, rfl, rfl, rfl, rfl⟩

/-- Witness for C10: rating nonexistent skill id 9 in the empty store. -/
theorem C10_rate_unknown_witness :
    (1 : Int) ≤ 5 ∧ ∃ st1,
      rate_skill emptyStore "t0" ⟨some "B", some 9, some 5, none⟩ = .ok st1 ∧
      st1.ratings = emptyStore.ratings ++
        [{ id := emptyStore.nextRatingId, skill_id := 9, rater_agent_id := "B",
           rating := 5, review := (none : Option String).getD "",
           created_at := "t0" }] ∧
      st1.skills = emptyStore.skills ∧ st1.agents = emptyStore.agents :=
  ⟨by decide,
   C10_rate_unknown_skill emptyStore "t0" _ "B" 9 5 rfl (by decide) rfl (by decide)
     rfl (by decide) (by decide) (by intro s hs; cases hs)⟩

/-! ## Claim C6: share fulfills the named request unconditionally -/

/-- C6: every share call passing validation that supplies a request_id stamps
every request row with that id as fulfilled by the sharer at the current time.
No hypothesis about the request's previous status, its fulfiller, or its skill
name is needed: the update is unconditional, so a second share naming the same
request silently overwrites fulfilled_by and fulfilled_at.  Rows with other ids
are left as they were. -/
theorem C6_share_fulfills_request (st : Store) (now : String) (body : ShareBody)
    (frm toA sk : String) (rid : Nat)
    (hf : body.from_agent_id = some frm) (hfne : frm ≠ "")
    (ht : body.to_agent_id = some toA) (htne : toA ≠ "")
    (hs : body.skill_name = some sk) (hskne : sk ≠ "")
    (hr : body.request_id = some rid) (hrne : rid ≠ 0) :
    ∃ st1, share_skill st now body = .ok st1 ∧
      (∀ rq ∈ st1.requests, rq.id = rid →
        rq.status = "fulfilled" ∧ rq.fulfilled_by = some frm ∧
          rq.fulfilled_at = some now) ∧
      (∀ rq ∈ st1.requests, rq.id ≠ rid → rq ∈ st.requests) := by
  obtain ⟨bf, bt, bs, br⟩ := body
  dsimp only at hf ht hs hr
  subst hf ht hs hr
  unfold share_skill
  dsimp only
  rw [if_neg (by simp [hfne, htne, hskne])]
  rw [if_neg hrne]
  refine ⟨_, rfl, ?_, ?_⟩
  · intro rq hrq hid
    obtain ⟨rq0, hrq0, rfl⟩ := List.mem_map.mp hrq
    by_cases h0 : rq0.id = rid
    · rw [if_pos h0]
      exact ⟨rfl, rfl, rfl⟩
    · rw [if_neg h0] at hid
      exact absurd hid h0
  · intro rq hrq hid
    obtain ⟨rq0, hrq0, rfl⟩ := List.mem_map.mp hrq
    by_cases h0 : rq0.id = rid
    · exfalso
      apply hid
      rw [if_pos h0]
      exact h0
    · rw [if_neg h0]
      exact hrq0

/-- A request row already marked fulfilled by agent "C", used to witness that a
second share overwrites the fulfillment stamps. -/
def fulfilledReq : RequestRow :=
  { id := 7, requester_agent_id := "B", skill_name := "weather",
    status := "fulfilled", fulfilled_by := some "C", created_at := "t0",
    fulfilled_at := some "t1" }

/-- Witness for C6: re-fulfilling the already-fulfilled request 7 from agent
"A" overwrites its stamps. -/
theorem C6_share_fulfills_witness :
    ("A" : String) ≠ "" ∧ ∃ st1,
      share_skill { emptyStore with requests := [fulfilledReq] } "t2"
          ⟨some "A", some "B", some "weather", some 7⟩ = .ok st1 ∧
      (∀ rq ∈ st1.requests, rq.id = 7 →
        rq.status = "fulfilled" ∧ rq.fulfilled_by = some "A" ∧
          rq.fulfilled_at = some "t2") ∧
      (∀ rq ∈ st1.requests, rq.id ≠ 7 →
        rq ∈ ({ emptyStore with requests := [fulfilledReq] } : Store).requests) :=
  ⟨by decide,
   C6_share_fulfills_request _ "t2" _ "A" "B" "weather" 7 rfl (by decide) rfl
     (by decide) rfl (by decide) rfl (by decide)⟩

/-! ## Claim C3: re-registration is a counter-preserving upsert -/

/-- C3: re-registering an existing agent id overwrites name, description,
skills and last_seen, forces status to "online", and preserves registered_at,
total_shares, total_receives and reputation; every other agent row and every
other table is untouched. -/
theorem C3_register_upsert_frame (st : Store) (now : String) (body : RegisterBody)
    (aid : String) (hid : body.agent_id = some aid) (hne : aid ≠ "")
    (hex : ∃ a ∈ st.agents, a.id = aid) :
    ∃ st1, register_agent st now body = .ok st1 ∧
      st1.skills = st.skills ∧ st1.transfers = st.transfers ∧
      st1.requests = st.requests ∧ st1.ratings = st.ratings ∧
      ∀ a ∈ st.agents, ∃ a1 ∈ st1.agents,
        a1.registered_at = a.registered_at ∧ a1.total_shares = a.total_shares ∧
        a1.total_receives = a.total_receives ∧ a1.reputation = a.reputation ∧
        (a.id = aid →
          a1.name = body.name.getD ("Agent-" ++ strTake aid 8) ∧
          a1.description = body.description.getD "" ∧
          a1.skills = body.skills.getD [] ∧
          a1.last_seen = now ∧ a1.status = "online") ∧
        (a.id ≠ aid → a1 = a) := by
  obtain ⟨ba, bn, bd, bsk⟩ := body
  dsimp only at hid
  subst hid
  have hany : st.agents.any (fun a => a.id == aid) = true := by
    obtain ⟨a, ha, hae⟩ := hex
    exact List.any_eq_true.mpr ⟨a, ha, by simp [hae]⟩
  unfold register_agent
  dsimp only
  rw [if_neg hne, if_pos hany]
  refine ⟨_, rfl, rfl, rfl, rfl, rfl, ?_⟩
  intro a ha
  refine ⟨_, List.mem_map_of_mem _ ha, ?_⟩
  dsimp only
  by_cases h0 : a.id = aid
  · rw [if_pos h0]
    exact ⟨rfl, rfl, rfl, rfl, fun _ => ⟨rfl, rfl, rfl, rfl, rfl⟩,
      fun hc => absurd h0 hc⟩
  · rw [if_neg h0]
    exact ⟨rfl, rfl, rfl, rfl, fun hc => absurd hc h0, fun _ => rfl⟩

/-- An agent whose total_shares counter has already reached 1 through a share,
together with the matching transfer log. -/
def sharedAgent : Agent :=
  { id := "A", name := "Old", description := "", skills := ["weather"],
    reputation := 5, total_shares := 1, total_receives := 0,
    registered_at := "t0", last_seen := "t0", status := "online" }

/-- The transfer logged by sharedAgent's one share. -/
def sharedTransfer : Transfer :=
  { id := 1, skill_id := none, from_agent_id := "A", to_agent_id := "B",
    status := "completed", timestamp := "t1" }

/-- The store after sharedAgent's one share. -/
def stShared : Store :=
  { emptyStore with
    agents := [sharedAgent], transfers := [sharedTransfer],
    nextTransferId := 2 }

/-- Witness for C3: re-registering "A" after its total_shares reached 1. -/
theorem C3_register_upsert_witness :
    ("A" : String) ≠ "" ∧ ∃ st1,
      register_agent stShared "t2" ⟨some "A", some "New", none, some ["weather"]⟩ =
        .ok st1 ∧
      st1.skills = stShared.skills ∧ st1.transfers = stShared.transfers ∧
      st1.requests = stShared.requests ∧ st1.ratings = stShared.ratings ∧
      ∀ a ∈ stShared.agents, ∃ a1 ∈ st1.agents,
        a1.registered_at = a.registered_at ∧ a1.total_shares = a.total_shares ∧
        a1.total_receives = a.total_receives ∧ a1.reputation = a.reputation ∧
        (a.id = "A" →
          a1.name = (⟨some "A", some "New", none, some ["weather"]⟩ :
            RegisterBody).name.getD ("Agent-" ++ strTake "A" 8) ∧
          a1.description = (⟨some "A", some "New", none, some ["weather"]⟩ :
            RegisterBody).description.getD "" ∧
          a1.skills = (⟨some "A", some "New", none, some ["weather"]⟩ :
            RegisterBody).skills.getD [] ∧
          a1.last_seen = "t2" ∧ a1.status = "online") ∧
        (a.id ≠ "A" → a1 = a) :=
  ⟨by decide,
   C3_register_upsert_frame stShared "t2" _ "A" rfl (by decide)
     ⟨sharedAgent, by simp [stShared], rfl⟩⟩

/-! ## Claim C4: rating recomputes the skill mean and the owner reputation -/

/-- Mapping an α-endomorphism that preserves a predicate commutes with find?. -/
theorem find_map_pres {α : Type} (l : List α) (f : α → α) (p : α → Bool)
    (h : ∀ x, p (f x) = p x) : (l.map f).find? p = (l.find? p).map f := by
  induction l with
  | nil => rfl
  | cons a t ih =>
    rw [List.map_cons]
    by_cases hp : p a = true
    · rw [List.find?_cons_of_pos _ (by rw [h]; exact hp),
        List.find?_cons_of_pos _ hp, Option.map_some']
    · rw [List.find?_cons_of_neg _ (by rw [h]; simpa using hp),
        List.find?_cons_of_neg _ (by simpa using hp), ih]

/-- The sum of a list of integers that are all at least 1 is at least its
length. -/
theorem length_le_sum_of_one_le (l : List Int) (h : ∀ x ∈ l, 1 ≤ x) :
    (l.length : Int) ≤ l.sum := by
  induction l with
  | nil => simp
  | cons a t ih =>
    have ha := h a (by simp)
    have ht := ih fun x hx => h x (by simp [hx])
    simp only [List.length_cons, List.sum_cons]
    push_cast
    omega

/-- The mean of a non-empty list of integers that are all at least 1 is
positive. -/
theorem meanQ_pos (l : List Int) (h : ∀ x ∈ l, 1 ≤ x) (hne : l ≠ []) :
    0 < meanQ l := by
  unfold meanQ
  apply div_pos
  · have h1 := length_le_sum_of_one_le l h
    have h2 : 0 < l.length := List.length_pos.mpr hne
    have h3 : (0 : Int) < l.sum := by omega
    exact_mod_cast h3
  · exact_mod_cast List.length_pos.mpr hne

/-- Every element of the owner join is the rating of some rating row. -/
theorem mem_ownerJoinRatings (ratings : List Rating) (skills : List Skill)
    (owner : String) (x : Int) (hx : x ∈ ownerJoinRatings ratings skills owner) :
    ∃ q ∈ ratings, x = q.rating := by
  unfold ownerJoinRatings at hx
  obtain ⟨q, hq, hxq⟩ := List.mem_flatMap.mp hx
  obtain ⟨_, _, hxe⟩ := List.mem_map.mp hxq
  exact ⟨q, hq, hxe.symm⟩

/-- A rating row joined against a matching owned catalog row contributes its
rating value to the owner join. -/
theorem ownerJoin_mem (ratings : List Rating) (skills : List Skill) (owner : String)
    (q : Rating) (hq : q ∈ ratings) (sk : Skill) (hsk : sk ∈ skills)
    (hid : sk.id = q.skill_id) (hown : sk.owner_agent_id = owner) :
    q.rating ∈ ownerJoinRatings ratings skills owner := by
  unfold ownerJoinRatings
  exact List.mem_flatMap.mpr ⟨q, hq, List.mem_map.mpr ⟨sk,
    List.mem_filter.mpr ⟨hsk, by simp [hid, hown]⟩, rfl⟩⟩

/-- C4: a valid rate call on an existing catalog skill appends the rating row,
sets the rating of every catalog row with the rated id to the arithmetic mean
of all ratings ever recorded for that id (repeat ratings counting
independently), and sets the reputation of the skill's owner to the mean of
ratings across all catalog rows that agent owns.  The hypothesis that stored
ratings lie in the valid range reflects the endpoint's own [1,5] validation. -/
theorem C4_rate_recomputes_means (st : Store) (now : String) (body : RateBody)
    (aid : String) (sid : Nat) (r : Int) (s0 : Skill)
    (ha : body.agent_id = some aid) (hane : aid ≠ "")
    (hsid : body.skill_id = some sid) (hsne : sid ≠ 0)
    (hr : body.rating = some r) (h1 : 1 ≤ r) (h5 : r ≤ 5)
    (hfind : st.skills.find? (fun s => s.id == sid) = some s0)
    (hpos : ∀ q ∈ st.ratings, 1 ≤ q.rating) :
    ∃ st1, rate_skill st now body = .ok st1 ∧
      st1.ratings = st.ratings ++
        [{ id := st.nextRatingId, skill_id := sid, rater_agent_id := aid,
           rating := r, review := body.review.getD "", created_at := now }] ∧
      (∀ s1 ∈ st1.skills, s1.id = sid →
        s1.rating = meanQ ((st1.ratings.filter fun q => q.skill_id == sid).map
          fun q => q.rating)) ∧
      (∀ a1 ∈ st1.agents, a1.id = s0.owner_agent_id →
        a1.reputation = meanQ (ownerJoinRatings st1.ratings st1.skills
          s0.owner_agent_id)) := by
  obtain ⟨ba, bs, br, bv⟩ := body
  dsimp only at ha hsid hr
  subst ha hsid hr
  have hs0id : s0.id = sid := by
    have := List.find?_some hfind
    simpa using this
  have hs0mem : s0 ∈ st.skills := List.mem_of_find?_eq_some hfind
  unfold rate_skill
  dsimp only
  rw [if_neg (by simp [hane, hsne])]
  dsimp only [Option.getD_some]
  rw [if_neg (by omega)]
  rw [find_map_pres]
  case h =>
    intro x
    by_cases hx : x.id = sid
    · simp [hx]
    · simp [hx]
  rw [hfind]
  dsimp only [Option.map_some']
  rw [if_pos hs0id]
  dsimp only
  set newRow : Rating :=
    { id := st.nextRatingId, skill_id := sid, rater_agent_id := aid,
      rating := r, review := bv.getD "", created_at := now } with hNew
  set R : List Rating := st.ratings ++ [newRow] with hR
  set avg : Rat := meanQ ((R.filter fun q => q.skill_id == sid).map
    fun q => q.rating) with havg
  set f : Skill → Skill := fun s =>
    if s.id = sid then { s with rating := avg } else s with hf
  set S : List Skill := st.skills.map f with hS
  have hql : newRow ∈ R := by rw [hR]; exact List.mem_append_right _ (by simp)
  have hfS : f s0 ∈ S := by rw [hS]; exact List.mem_map_of_mem f hs0mem
  have hf0id : (f s0).id = newRow.skill_id := by simp [hf, hNew, hs0id]
  have hf0own : (f s0).owner_agent_id = s0.owner_agent_id := by simp [hf, hs0id]
  have hmem : newRow.rating ∈ ownerJoinRatings R S s0.owner_agent_id :=
    ownerJoin_mem R S _ newRow hql (f s0) hfS hf0id hf0own
  have hne : ownerJoinRatings R S s0.owner_agent_id ≠ [] := List.ne_nil_of_mem hmem
  have hall : ∀ x ∈ ownerJoinRatings R S s0.owner_agent_id, 1 ≤ x := by
    intro x hx
    obtain ⟨p, hp, hxe⟩ := mem_ownerJoinRatings _ _ _ _ hx
    subst hxe
    rw [hR] at hp
    rcases List.mem_append.mp hp with h | h
    · exact hpos p h
    · have hpn : p = newRow := by simpa using h
      subst hpn
      exact h1
  have hcond : ¬((ownerJoinRatings R S s0.owner_agent_id).isEmpty = true ∨
      meanQ (ownerJoinRatings R S s0.owner_agent_id) = 0) := by
    intro hcon
    rcases hcon with hemp | hzero
    · exact hne (by simpa using hemp)
    · exact absurd hzero (ne_of_gt (meanQ_pos _ hall hne))
  rw [if_neg hcond]
  refine ⟨_, rfl, rfl, ?_, ?_⟩
  · intro s1 hs1 hid1
    dsimp only at hs1 ⊢
    rw [hS] at hs1
    obtain ⟨s, hs, rfl⟩ := List.mem_map.mp hs1
    by_cases hcase : s.id = sid
    · simp only [hf]
      rw [if_pos hcase]
    · simp only [hf] at hid1
      rw [if_neg hcase] at hid1
      exact absurd hid1 hcase
  · intro a1 ha1 hid1
    dsimp only at ha1 ⊢
    obtain ⟨a, haa, rfl⟩ := List.mem_map.mp ha1
    by_cases hcase : a.id = s0.owner_agent_id
    · rw [if_pos hcase]
    · rw [if_neg hcase] at hid1
      exact absurd hid1 hcase

/-- The catalog row rated in the C4 witness scenario: skill 1 owned by "A". -/
def ratedSkill : Skill :=
  { id := 1, skill_name := "weather", category := "other", description := "",
    owner_agent_id := "A", endpoint := "", parameters := "", rating := 5,
    times_shared := 0, created_at := "t0" }

/-- The first rating (value 5) already recorded for ratedSkill. -/
def firstRating : Rating :=
  { id := 1, skill_id := 1, rater_agent_id := "B", rating := 5, review := "",
    created_at := "t1" }

/-- The store holding owner "A", ratedSkill and its first rating of 5. -/
def stRated : Store :=
  { emptyStore with
    agents := [sampleAgent], skills := [ratedSkill], ratings := [firstRating],
    nextSkillId := 2, nextRatingId := 2 }

/-- Witness for C4: rating skill 1 (already rated 5) with a 3; the skill's
rating and the owner's reputation become the mean of the two ratings, 4. -/
theorem C4_rate_witness :
    stRated.skills.find? (fun s => s.id == 1) = some ratedSkill ∧ ∃ st1,
      rate_skill stRated "t2" ⟨some "B", some 1, some 3, none⟩ = .ok st1 ∧
      st1.ratings = stRated.ratings ++
        [{ id := stRated.nextRatingId, skill_id := 1, rater_agent_id := "B",
           rating := 3, review := (none : Option String).getD "",
           created_at := "t2" }] ∧
      (∀ s1 ∈ st1.skills, s1.id = 1 →
        s1.rating = meanQ ((st1.ratings.filter fun q => q.skill_id == 1).map
          fun q => q.rating)) ∧
      (∀ a1 ∈ st1.agents, a1.id = ratedSkill.owner_agent_id →
        a1.reputation = meanQ (ownerJoinRatings st1.ratings st1.skills
          ratedSkill.owner_agent_id)) :=
  ⟨rfl,
   C4_rate_recomputes_means stRated "t2" _ "B" 1 3 ratedSkill rfl (by decide)
     rfl (by decide) rfl (by decide) (by decide) rfl (by decide)⟩

/-! ## Claim C1: discover returns exact case-insensitive matches -/

/-- Insertion keeps exactly the members of the list. -/
theorem mem_insertByRep {x a : Agent} :
    ∀ {l : List Agent}, x ∈ insertByRep a l ↔ x = a ∨ x ∈ l := by
  intro l
  induction l with
  | nil => simp [insertByRep]
  | cons b t ih =>
    unfold insertByRep
    by_cases h : b.reputation ≤ a.reputation
    · rw [if_pos h]
      simp
    · rw [if_neg h]
      simp only [List.mem_cons, ih]
      tauto

/-- Sorting by reputation keeps exactly the members of the list. -/
theorem mem_sortByRep {x : Agent} :
    ∀ {l : List Agent}, x ∈ sortByRep l ↔ x ∈ l := by
  intro l
  induction l with
  | nil => simp [sortByRep]
  | cons a t ih =>
    unfold sortByRep
    rw [mem_insertByRep, ih]
    simp

/-- An ASCII code point whose lower-casing is not a lower-case letter is fixed
by lower-casing. -/
theorem eq_of_lowerN_eq_nonletter (d v : Nat) (hv : ¬(97 ≤ v ∧ v ≤ 122))
    (h : lowerN d = v) : d = v := by
  unfold lowerN at h
  split at h <;> omega

/-- A LIKE pattern run followed by `%` matches any text that starts with a
case-insensitively equal run. -/
theorem likeMatch_run :
    ∀ (p t w : List Nat), lowerCodes p = lowerCodes t →
      likeMatch (p ++ [37]) (t ++ w) = true := by
  intro p
  induction p with
  | nil =>
    intro t w h
    have ht : t = [] := by
      have := h.symm
      simpa [lowerCodes] using this
    subst ht
    simp only [List.nil_append, List.append_nil]
    show likeMatch (37 :: []) w = true
    simp only [likeMatch, if_pos]
    exact List.any_eq_true.mpr ⟨[], (List.mem_tails _ _).mpr List.nil_suffix, rfl⟩
  | cons c p' ih =>
    intro t w h
    cases t with
    | nil => simp [lowerCodes] at h
    | cons d t' =>
      simp only [lowerCodes, List.map_cons, List.cons.injEq] at h
      obtain ⟨hcd, h'⟩ := h
      by_cases hc37 : c = 37
      · subst hc37
        have hd : d = 37 :=
          eq_of_lowerN_eq_nonletter d 37 (by omega) (by rw [← hcd]; rfl)
        subst hd
        show likeMatch (37 :: (p' ++ [37])) (37 :: (t' ++ w)) = true
        simp only [likeMatch, if_pos]
        exact List.any_eq_true.mpr ⟨t' ++ w,
          (List.mem_tails _ _).mpr ⟨[37], rfl⟩, ih t' w h'⟩
      · by_cases hc95 : c = 95
        · subst hc95
          show likeMatch (95 :: (p' ++ [37])) (d :: (t' ++ w)) = true
          simp only [likeMatch]
          rw [if_pos trivial]
          exact ih t' w h'
        · show likeMatch (c :: (p' ++ [37])) (d :: (t' ++ w)) = true
          simp only [likeMatch]
          rw [if_neg hc37, if_neg hc95]
          simp only [Bool.and_eq_true, beq_iff_eq]
          exact ⟨hcd, ih t' w h'⟩

/-- A `%...%` LIKE pattern matches any text containing a case-insensitively
equal contiguous run. -/
theorem likeMatch_infix (mid t u v : List Nat) (h : lowerCodes mid = lowerCodes t) :
    likeMatch (37 :: (mid ++ [37])) (u ++ (t ++ v)) = true := by
  simp only [likeMatch, if_pos]
  exact List.any_eq_true.mpr ⟨t ++ v,
    (List.mem_tails _ _).mpr (List.suffix_append u (t ++ v)), likeMatch_run mid t v h⟩

/-- Every member of a list occurs contiguously in its comma join. -/
theorem joinComma_occurrence {x : List Nat} :
    ∀ {l : List (List Nat)}, x ∈ l → ∃ u v, joinComma l = u ++ (x ++ v) := by
  intro l
  induction l with
  | nil => intro h; cases h
  | cons y t ih =>
    intro hmem
    cases t with
    | nil =>
      have hx : x = y := by simpa using hmem
      subst hx
      exact ⟨[], [], by simp [joinComma]⟩
    | cons z t' =>
      rcases List.mem_cons.mp hmem with hx | hx
      · subst hx
        exact ⟨[], [44, 32] ++ joinComma (z :: t'), by simp [joinComma]⟩
      · obtain ⟨u, v, huv⟩ := ih hx
        exact ⟨y ++ [44, 32] ++ u, v, by simp [joinComma, huv]⟩

/-- A plain code point is stored by json.dumps as itself. -/
theorem jsonEscape_plain (c : Nat) (h : plainCode c) : jsonEscape c = [c] := by
  obtain ⟨h32, h126, h34, h92⟩ := h
  unfold jsonEscape
  rw [if_neg h34, if_neg h92, if_neg (by omega), if_neg (by omega),
    if_neg (by omega), if_neg (by omega), if_neg (by omega), if_neg (by omega),
    if_pos (by omega)]

/-- A string of plain code points is stored by json.dumps unescaped. -/
theorem flatMap_jsonEscape_plain (l : List Nat) (h : ∀ c ∈ l, plainCode c) :
    l.flatMap jsonEscape = l := by
  induction l with
  | nil => rfl
  | cons c t ih =>
    rw [List.flatMap_cons, jsonEscape_plain c (h c (by simp)),
      ih fun x hx => h x (by simp [hx])]
    rfl

/-- The json.dumps serialization of a skill list contains each plain member as
a contiguous quoted run. -/
theorem jsonDump_occurrence (skills : List String) (sk : String)
    (hmem : sk ∈ skills) (hplain : ∀ c ∈ codes sk, plainCode c) :
    ∃ u v, jsonDumpCodes skills = u ++ ((34 :: codes sk ++ [34]) ++ v) := by
  have hq : jsonQuote (codes sk) = 34 :: codes sk ++ [34] := by
    unfold jsonQuote
    rw [flatMap_jsonEscape_plain _ hplain]
  obtain ⟨u, v, huv⟩ := joinComma_occurrence
    (List.mem_map_of_mem (fun s => jsonQuote (codes s)) hmem)
  refine ⟨91 :: u, v ++ [93], ?_⟩
  unfold jsonDumpCodes
  rw [huv]
  simp [hq]

/-- C1 (amended): for every discover call, every returned match for a tag is an
online agent other than the requester whose skill list contains the tag as an
exact case-insensitive member — never a substring-only match — and, PROVIDED
the tag and the agent's skills consist of plain code points (printable ASCII
other than the double quote and the backslash, the characters json.dumps stores
unescaped), every such agent is returned.  Without that proviso the SQL
prefilter `skills LIKE '%"tag"%'` can miss exact matches whose JSON storage is
escaped, as the counterexample shows. -/
theorem C1_discover_exact_membership (agents : List Agent) (tag requester : String)
    (a : Agent) :
    (a ∈ discoverFilter agents tag requester →
      a ∈ agents ∧ a.status = "online" ∧ a.id ≠ requester ∧
        lowerCodes (codes tag) ∈ a.skills.map fun s => lowerCodes (codes s)) ∧
    ((∀ c ∈ codes tag, plainCode c) →
      (∀ s ∈ a.skills, ∀ c ∈ codes s, plainCode c) →
      a ∈ agents → a.status = "online" → a.id ≠ requester →
      lowerCodes (codes tag) ∈ (a.skills.map fun s => lowerCodes (codes s)) →
      a ∈ discoverFilter agents tag requester) := by
  constructor
  · intro hmem
    unfold discoverFilter at hmem
    obtain ⟨hsort, href⟩ := List.mem_filter.mp hmem
    obtain ⟨hag, hpreb⟩ := List.mem_filter.mp (mem_sortByRep.mp hsort)
    unfold discoverPre at hpreb
    simp only [Bool.and_eq_true, beq_iff_eq, bne_iff_ne] at hpreb
    unfold discoverRefine at href
    simp only [decide_eq_true_eq] at href
    exact ⟨hag, hpreb.1.2, hpreb.2, href⟩
  · intro hptag hpskills hag hst hid hskmem
    unfold discoverFilter
    refine List.mem_filter.mpr ⟨mem_sortByRep.mpr (List.mem_filter.mpr ⟨hag, ?_⟩), ?_⟩
    · unfold discoverPre
      simp only [Bool.and_eq_true, beq_iff_eq, bne_iff_ne]
      refine ⟨⟨?_, hst⟩, hid⟩
      obtain ⟨s, hsmem, hseq⟩ := List.mem_map.mp hskmem
      obtain ⟨u, v, hocc⟩ := jsonDump_occurrence a.skills s hsmem (hpskills s hsmem)
      rw [hocc]
      have hpat : (37 : Nat) :: 34 :: codes tag ++ [34, 37] =
          37 :: ((34 :: codes tag ++ [34]) ++ [37]) := by simp
      rw [hpat]
      refine likeMatch_infix _ _ u v ?_
      simp only [lowerCodes, List.map_cons, List.map_append] at hseq ⊢
      rw [hseq]
    · unfold discoverRefine
      simpa using hskmem

/-- An online agent declaring the single skill tag `a"b`, whose JSON storage is
escaped. -/
def quoteTagAgent : Agent :=
  { id := "A", name := "A", description := "", skills := ["a\"b"],
    reputation := 5, total_shares := 0, total_receives := 0,
    registered_at := "t", last_seen := "t", status := "online" }

/-- C1 counterexample: the tag `a"b` is an exact (case-insensitive) member of
quoteTagAgent's skill list and the agent is online with an id different from
the requester, yet discover returns nothing for that tag: the SQL prefilter
pattern `%"a"b"%` cannot match the stored JSON text `["a\"b"]`, in which the
quote is escaped. -/
theorem C1_discover_counterexample :
    lowerCodes (codes "a\"b") ∈ quoteTagAgent.skills.map
      (fun s => lowerCodes (codes s)) ∧
    quoteTagAgent.status = "online" ∧ quoteTagAgent.id ≠ "r" ∧
    discoverFilter [quoteTagAgent] "a\"b" "r" = [] :=
  ⟨by decide, rfl, by decide, rfl⟩

/-- An online agent declaring the single plain skill tag "weather". -/
def weatherAgent : Agent :=
  { id := "A", name := "A", description := "", skills := ["weather"],
    reputation := 5, total_shares := 0, total_receives := 0,
    registered_at := "t", last_seen := "t", status := "online" }

/-- Witness for C1: for the plain tag "weather" the completeness direction
returns the exactly matching agent. -/
theorem C1_discover_witness :
    (∀ c ∈ codes "weather", plainCode c) ∧
    weatherAgent ∈ discoverFilter [weatherAgent] "weather" "r" :=
  ⟨by decide,
   (C1_discover_exact_membership [weatherAgent] "weather" "r" weatherAgent).2
     (by decide) (by decide) (by decide) rfl (by decide) (by decide)⟩

/-! ## Claim C5: total_shares counts the transfers from each agent -/

/-- sharesInv is preserved by any store change that maps the agent rows
through an id- and total_shares-preserving function and keeps the transfer
log. -/
theorem sharesInv_map (st st1 : Store) (f : Agent → Agent)
    (hag : st1.agents = st.agents.map f) (htr : st1.transfers = st.transfers)
    (hid : ∀ a, (f a).id = a.id) (hts : ∀ a, (f a).total_shares = a.total_shares)
    (h : sharesInv st) : sharesInv st1 := by
  constructor
  · intro a1 ha1
    rw [hag] at ha1
    obtain ⟨a, ha, rfl⟩ := List.mem_map.mp ha1
    rw [hts, hid, htr]
    exact h.1 a ha
  · intro t ht
    rw [htr] at ht
    obtain ⟨a, ha, hae⟩ := h.2 t ht
    refine ⟨f a, ?_, ?_⟩
    · rw [hag]
      exact List.mem_map_of_mem f ha
    · rw [hid]
      exact hae

/-- sharesInv is preserved when neither the agent rows nor the transfer log
change. -/
theorem sharesInv_eq (st st1 : Store)
    (hag : st1.agents = st.agents) (htr : st1.transfers = st.transfers)
    (h : sharesInv st) : sharesInv st1 :=
  sharesInv_map st st1 id (by rw [hag, List.map_id]) htr (fun _ => rfl)
    (fun _ => rfl) h

/-- register preserves sharesInv: an update keeps counters, and a fresh row
starts at zero with, by the orphan-free half of the invariant, no transfers
from its id. -/
theorem register_preserves (st : Store) (now : String) (body : RegisterBody)
    (h : sharesInv st) : sharesInv (applyOp st (Op.register now body)) := by
  unfold applyOp register_agent
  dsimp only
  cases body.agent_id with
  | none => exact h
  | some aid =>
    dsimp only
    by_cases he : aid = ""
    · rw [if_pos he]
      exact h
    · rw [if_neg he]
      by_cases hex : st.agents.any (fun a => a.id == aid) = true
      · rw [if_pos hex]
        refine sharesInv_map st _ _ rfl rfl ?_ ?_ h
        · intro a
          dsimp only
          split <;> rfl
        · intro a
          dsimp only
          split <;> rfl
      · rw [if_neg hex]
        constructor
        · intro a1 ha1
          rcases List.mem_append.mp ha1 with ha | ha
          · exact h.1 a1 ha
          · have ha1e : a1 =
                { id := aid, name := body.name.getD ("Agent-" ++ strTake aid 8),
                  description := body.description.getD "",
                  skills := body.skills.getD [], reputation := 5,
                  total_shares := 0, total_receives := 0, registered_at := now,
                  last_seen := now, status := "online" } := by
              simpa using ha
            subst ha1e
            have hfil : st.transfers.filter (fun t => t.from_agent_id == aid) = [] := by
              rw [List.filter_eq_nil_iff]
              intro t ht hbeq
              obtain ⟨a, ha2, hae⟩ := h.2 t ht
              apply hex
              refine List.any_eq_true.mpr ⟨a, ha2, ?_⟩
              rw [beq_iff_eq] at hbeq ⊢
              rw [hae, hbeq]
            dsimp only
            rw [hfil]
            rfl
        · intro t ht
          obtain ⟨a, ha, hae⟩ := h.2 t ht
          exact ⟨a, List.mem_append_left _ ha, hae⟩

/-- deregister preserves sharesInv: only status changes. -/
theorem deregister_preserves (st : Store) (aid : String)
    (h : sharesInv st) : sharesInv (applyOp st (Op.deregister aid)) := by
  unfold applyOp deregister_agent
  dsimp only
  refine sharesInv_map st _ _ rfl rfl ?_ ?_ h
  · intro a
    dsimp only
    split <;> rfl
  · intro a
    dsimp only
    split <;> rfl

/-- publish preserves sharesInv: agents and transfers are untouched. -/
theorem publish_preserves (st : Store) (now : String) (body : PublishBody)
    (h : sharesInv st) : sharesInv (applyOp st (Op.publish now body)) := by
  unfold applyOp publish_skill
  dsimp only
  cases body.agent_id with
  | none => exact h
  | some aid =>
    cases body.skill_name with
    | none => exact h
    | some sk =>
      dsimp only
      by_cases hv : aid = "" ∨ sk = ""
      · rw [if_pos hv]
        exact h
      · rw [if_neg hv]
        exact sharesInv_eq st _ rfl rfl h

/-- request preserves sharesInv: agents and transfers are untouched. -/
theorem request_preserves (st : Store) (now : String) (body : RequestBody)
    (h : sharesInv st) : sharesInv (applyOp st (Op.request now body)) := by
  unfold applyOp request_skill
  dsimp only
  cases body.agent_id with
  | none => exact h
  | some aid =>
    cases body.skill_name with
    | none => exact h
    | some sk =>
      dsimp only
      by_cases hv : aid = "" ∨ sk = ""
      · rw [if_pos hv]
        exact h
      · rw [if_neg hv]
        exact sharesInv_eq st _ rfl rfl h

/-- rate preserves sharesInv: it only ever touches ratings, skill ratings and
agent reputations. -/
theorem rate_preserves (st : Store) (now : String) (body : RateBody)
    (h : sharesInv st) : sharesInv (applyOp st (Op.rate now body)) := by
  unfold applyOp rate_skill
  dsimp only
  cases body.agent_id with
  | none => exact h
  | some aid =>
    cases body.skill_id with
    | none => exact h
    | some sid =>
      dsimp only
      by_cases hv : aid = "" ∨ sid = 0
      · rw [if_pos hv]
        exact h
      · rw [if_neg hv]
        by_cases hv2 : body.rating.getD 5 < 1 ∨ 5 < body.rating.getD 5
        · rw [if_pos hv2]
          exact h
        · rw [if_neg hv2]
          split
          · next st1 heq =>
            split at heq
            · cases heq
              exact sharesInv_eq st _ rfl rfl h
            · split at heq
              · cases heq
                exact sharesInv_eq st _ rfl rfl h
              · cases heq
                refine sharesInv_map st _ _ rfl rfl ?_ ?_ h
                · intro a
                  dsimp only
                  split <;> rfl
                · intro a
                  dsimp only
                  split <;> rfl
          · exact h

/-- share preserves sharesInv provided its from-agent is registered: the new
transfer is matched by the one counter bump. -/
theorem share_preserves (st : Store) (now : String) (body : ShareBody)
    (h : sharesInv st) (hc : shareOpOk st (Op.share now body)) :
    sharesInv (applyOp st (Op.share now body)) := by
  unfold applyOp share_skill
  dsimp only
  unfold shareOpOk at hc
  dsimp only at hc
  cases hbf : body.from_agent_id with
  | none => exact h
  | some frm =>
    cases hbt : body.to_agent_id with
    | none => exact h
    | some toA =>
      cases hbs : body.skill_name with
      | none => exact h
      | some sk =>
        rw [hbf, hbt, hbs] at hc
        dsimp only at hc ⊢
        by_cases hval : frm = "" ∨ toA = "" ∨ sk = ""
        · rw [if_pos hval]
          exact h
        · rw [if_neg hval]
          push_neg at hval
          obtain ⟨hf, ht2, hs2⟩ := hval
          obtain ⟨a0, ha0, ha0id⟩ := hc hf ht2 hs2
          set g1 : Agent → Agent := fun a =>
            if a.id = frm then { a with total_shares := a.total_shares + 1 }
            else a with hg1
          set g2 : Agent → Agent := fun a =>
            if a.id = toA then { a with total_receives := a.total_receives + 1 }
            else a with hg2
          have hgid : ∀ b : Agent, (g2 (g1 b)).id = b.id := by
            intro b
            rw [hg1, hg2]
            dsimp only
            split <;> split <;> rfl
          have hgts : ∀ b : Agent,
              (g2 (g1 b)).total_shares =
                b.total_shares + (if b.id = frm then 1 else 0) := by
            intro b
            rw [hg1, hg2]
            dsimp only
            by_cases h1 : b.id = frm
            · rw [if_pos h1]
              dsimp only
              split <;> simp [h1]
            · rw [if_neg h1]
              split <;> simp [h1]
          constructor
          · intro a1 ha1
            dsimp only at ha1
            rw [List.map_map] at ha1
            obtain ⟨a, ha, rfl⟩ := List.mem_map.mp ha1
            show (g2 (g1 a)).total_shares = _
            rw [hgts]
            conv_rhs => rw [Function.comp_apply, hgid]
            rw [List.filter_append, List.length_append, ← h.1 a ha]
            congr 1
            by_cases haf : a.id = frm
            · simp [List.filter, haf]
            · have hne2 : (frm == a.id) = false := by
                rw [beq_eq_false_iff_ne]
                exact fun hcon => haf hcon.symm
              simp [List.filter, haf, hne2]
          · intro t ht
            dsimp only at ht ⊢
            rcases List.mem_append.mp ht with hto | htn
            · obtain ⟨a, ha, hae⟩ := h.2 t hto
              refine ⟨g2 (g1 a), ?_, ?_⟩
              · rw [List.map_map]
                exact List.mem_map_of_mem _ ha
              · rw [hgid]
                exact hae
            · have htr : t =
                  { id := st.nextTransferId,
                    skill_id := (st.skills.find? fun s =>
                      s.skill_name == sk && s.owner_agent_id == frm).map
                        (fun s => s.id),
                    from_agent_id := frm, to_agent_id := toA,
                    status := "completed", timestamp := now } := by
                simpa using htn
              refine ⟨g2 (g1 a0), ?_, ?_⟩
              · rw [List.map_map]
                exact List.mem_map_of_mem _ ha0
              · rw [hgid, htr]
                exact ha0id

/-- One operation preserves sharesInv under its share side condition. -/
theorem applyOp_preserves (st : Store) (op : Op) (h : sharesInv st)
    (hc : shareOpOk st op) : sharesInv (applyOp st op) := by
  cases op with
  | register now body => exact register_preserves st now body h
  | deregister aid => exact deregister_preserves st aid h
  | publish now body => exact publish_preserves st now body h
  | request now body => exact request_preserves st now body h
  | share now body => exact share_preserves st now body h hc
  | rate now body => exact rate_preserves st now body h

/-- C5 (amended): starting from a store satisfying the share-counter invariant,
after any sequence of operations in which every validated share names a
registered from-agent, each agent row's total_shares equals the number of
transfers whose from_agent_id is that agent's id.  The proviso is forced by the
counterexample: the code never checks that the sharer exists, and a share from
a not-yet-registered agent logs a transfer without bumping any counter. -/
theorem C5_total_shares_invariant (st : Store) (ops : List Op)
    (h0 : sharesInv st) (hok : ChainOk st ops) :
    ∀ a ∈ (applyOps st ops).agents,
      a.total_shares =
        ((applyOps st ops).transfers.filter fun t =>
          t.from_agent_id == a.id).length := by
  suffices h : sharesInv (applyOps st ops) by exact h.1
  induction ops generalizing st with
  | nil => exact h0
  | cons op ops ih => exact ih (applyOp st op) (applyOp_preserves st op h0 hok.1) hok.2

/-- C5 counterexample: sharing from the never-registered agent "A" and then
registering "A" leaves A.total_shares at 0 while one transfer from "A" is
logged, so the claim fails for this operation sequence. -/
theorem C5_counter_orphan_share :
    ((applyOps emptyStore
        [Op.share "t1" ⟨some "A", some "B", some "x", none⟩,
         Op.register "t2" ⟨some "A", none, none, none⟩]).agents.map
      (fun a => (a.id, a.total_shares))) = [("A", 0)] ∧
    ((applyOps emptyStore
        [Op.share "t1" ⟨some "A", some "B", some "x", none⟩,
         Op.register "t2" ⟨some "A", none, none, none⟩]).transfers.filter
      (fun t => t.from_agent_id == "A")).length = 1 ∧
    (0 : Nat) ≠ 1 :=
  ⟨rfl, rfl, by decide⟩

/-- Witness for C5: one further share from the registered agent "A" keeps its
counter equal to its transfer count. -/
theorem C5_invariant_witness :
    sharesInv stShared ∧
    ∀ a ∈ (applyOps stShared
        [Op.share "t3" ⟨some "A", some "B", some "weather", none⟩]).agents,
      a.total_shares =
        ((applyOps stShared
          [Op.share "t3" ⟨some "A", some "B", some "weather", none⟩]).transfers.filter
            fun t => t.from_agent_id == a.id).length := by
  have hinv : sharesInv stShared := ⟨by decide, by decide⟩
  refine ⟨hinv, C5_total_shares_invariant stShared _ hinv ?_⟩
  exact ⟨fun _ _ _ => ⟨sharedAgent, by decide, rfl⟩, trivial⟩

end AgentNapster
